import Mathlib

/-!
# granty1/analysis — log-analysis pipeline (`analysis.go`)

A shallow embedding of the pure parts of `analysis.go` and of the library
functions it calls (`github.com/mgutz/str`, `strings`, `net/url`,
`crypto/md5`, `encoding/hex`), followed by theorems about them.

Conventions.
* A Go `string` is a finite sequence of bytes: `GoString := List Nat`, each
  element a byte value.  String literals are written `bytes "..."`, the UTF-8
  bytes of the literal.
* Go `int` values are modelled by `Int`.  All integers that occur are string
  lengths and offsets plus small constants, so 64-bit overflow cannot happen.
* A Go slice expression `s[lo:hi]` panics when its bounds are out of range.
  Slicing is therefore modelled by `goSlice`, which returns `none` on a
  panic, and every function that slices returns an `Option`.
* A channel that is ranged over is modelled by the list of the values that
  pass through it, in order.
-/

set_option autoImplicit false

namespace Analysis

/-! ## Go strings -/

/-- A Go string: a sequence of bytes. -/
abbrev GoString := List Nat

/-- The bytes of a string literal (its UTF-8 encoding). -/
def bytes (s : String) : GoString := s.toUTF8.data.toList.map UInt8.toNat

/-- The Go slice expression `s[lo:hi]`; `none` models the run-time panic for
bounds that are out of range. -/
def goSlice (s : GoString) (lo hi : Int) : Option GoString :=
  if 0 ≤ lo ∧ lo ≤ hi ∧ hi ≤ (s.length : Int) then
    some ((s.drop lo.toNat).take (hi - lo).toNat)
  else none

/-- Position of the first occurrence of `sep` in `s`, if there is one. -/
def firstIndex (s sep : GoString) : Option Nat :=
  match s with
  | [] => if sep.isPrefixOf [] then some 0 else none
  | c :: t =>
    if sep.isPrefixOf (c :: t) then some 0
    else (firstIndex t sep).map (· + 1)

/-- Go `strings.Index(s, sep)`: index of the first instance of `sep` in `s`,
or `-1` if `sep` is not present. -/
def stringsIndex (s sep : GoString) : Int :=
  match firstIndex s sep with
  | some i => (i : Int)
  | none => -1

/-! ## `github.com/mgutz/str` -/

/-- Go `str.IndexOf(s, needle, start)`:
```
l := len(s)
if needle == "" { if start < 0 { return 0 } else if start < l { return start } else { return l } }
if start < 0 || start > l-1 { return -1 }
pos := strings.Index(s[start:], needle)
if pos == -1 { return -1 }
return start + pos
``` -/
def IndexOf (s needle : GoString) (start : Int) : Option Int :=
  let l : Int := s.length
  if needle = [] then
    if start < 0 then some 0
    else if start < l then some start
    else some l
  else if start < 0 ∨ start > l - 1 then some (-1)
  else
    (goSlice s start l).bind fun rest =>
    let pos := stringsIndex rest needle
    if pos = -1 then some (-1) else some (start + pos)

/-- Go `str.Substr(s, index, n)`:
```
L := len(s)
if index < 0 || index >= L || s == "" { return "" }
end := index + n
if end >= L { end = L }
if end <= index { return "" }
return s[index:end]
``` -/
def Substr (s : GoString) (index n : Int) : Option GoString :=
  let L : Int := s.length
  if index < 0 ∨ index ≥ L ∨ s = [] then some []
  else
    let end0 := index + n
    let end1 := if end0 ≥ L then L else end0
    if end1 ≤ index then some []
    else goSlice s index end1

/-! ## Constants and records of `analysis.go` -/

def PREFIX : GoString := bytes "dig?"
def END : GoString := bytes "HTTP"
def RoutePrefix : GoString := bytes "http://"

/-- Go `type digData struct { url, time, refer, ua string }`; the zero value
`digData{}` has every field empty. -/
structure digData where
  url : GoString := []
  time : GoString := []
  refer : GoString := []
  ua : GoString := []
deriving DecidableEq, Repr

/-- Go `type urlNode struct { unType, unRid, unUrl, unTime string }`; the zero
value `urlNode{}` has every field empty. -/
structure urlNode where
  unType : GoString := []
  unRid : GoString := []
  unUrl : GoString := []
  unTime : GoString := []
deriving DecidableEq, Repr

/-- Go `type urlData struct { data digData; uid string; unNode urlNode }`. -/
structure urlData where
  data : digData
  uid : GoString
  unNode : urlNode
deriving DecidableEq, Repr

/-- Go `type storageBlock struct { counterType, storageModel string; uNode urlNode }`. -/
structure storageBlock where
  counterType : GoString
  storageModel : GoString
  uNode : urlNode
deriving DecidableEq, Repr

/-! ## `formatData` -/

/-- Go `formatData(url, time, uid)` of `analysis.go`:
```
pre := str.IndexOf(url, RoutePrefix, 0)
if pre != -1 {
    preRoute := str.Substr(url, len(RoutePrefix), len(url) - len(RoutePrefix))
    pre = str.IndexOf(preRoute, "/", 0)
    if pre != -1 {
        route := str.Substr(preRoute, pre+len("/"), len(preRoute)-1)
        return urlNode{unType: route, unRid: uid, unUrl: url, unTime: time}
    }
}
return urlNode{}
``` -/
def formatData (url time uid : GoString) : Option urlNode :=
  (IndexOf url RoutePrefix 0).bind fun pre =>
  if pre ≠ -1 then
    (Substr url (RoutePrefix.length : Int)
        ((url.length : Int) - (RoutePrefix.length : Int))).bind fun preRoute =>
    (IndexOf preRoute (bytes "/") 0).bind fun pre =>
    if pre ≠ -1 then
      (Substr preRoute (pre + ((bytes "/").length : Int))
          ((preRoute.length : Int) - 1)).bind fun route =>
      some { unType := route, unRid := uid, unUrl := url, unTime := time }
    else some {}
  else some {}


/-! ## `strings.TrimSpace` -/

/-- Width in bytes of the white-space rune encoded at the front of `s`, or `0`
when `s` does not start with one.  The white-space runes are those of Go's
`unicode.IsSpace`: U+0009..U+000D, U+0020, U+0085, U+00A0, U+1680,
U+2000..U+200A, U+2028, U+2029, U+202F, U+205F and U+3000, each in its UTF-8
encoding. -/
def spaceWidth : GoString → Nat
  | [] => 0
  | b0 :: rest =>
    if (9 ≤ b0 ∧ b0 ≤ 13) ∨ b0 = 32 then 1
    else
      match rest with
      | [] => 0
      | b1 :: rest2 =>
        if b0 = 0xC2 ∧ (b1 = 0x85 ∨ b1 = 0xA0) then 2
        else
          match rest2 with
          | [] => 0
          | b2 :: _ =>
            if (b0 = 0xE1 ∧ b1 = 0x9A ∧ b2 = 0x80)
                ∨ (b0 = 0xE2 ∧ b1 = 0x80 ∧
                    ((0x80 ≤ b2 ∧ b2 ≤ 0x8A) ∨ b2 = 0xA8 ∨ b2 = 0xA9 ∨ b2 = 0xAF))
                ∨ (b0 = 0xE2 ∧ b1 = 0x81 ∧ b2 = 0x9F)
                ∨ (b0 = 0xE3 ∧ b1 = 0x80 ∧ b2 = 0x80) then 3
            else 0

/-- Width in bytes of the white-space rune encoded at the end of a string,
given the string reversed (`r` is the last byte first), or `0`. -/
def spaceWidthRev : GoString → Nat
  | [] => 0
  | b0 :: rest =>
    if (9 ≤ b0 ∧ b0 ≤ 13) ∨ b0 = 32 then 1
    else
      match rest with
      | [] => 0
      | b1 :: rest2 =>
        if b1 = 0xC2 ∧ (b0 = 0x85 ∨ b0 = 0xA0) then 2
        else
          match rest2 with
          | [] => 0
          | b2 :: _ =>
            if (b2 = 0xE1 ∧ b1 = 0x9A ∧ b0 = 0x80)
                ∨ (b2 = 0xE2 ∧ b1 = 0x80 ∧
                    ((0x80 ≤ b0 ∧ b0 ≤ 0x8A) ∨ b0 = 0xA8 ∨ b0 = 0xA9 ∨ b0 = 0xAF))
                ∨ (b2 = 0xE2 ∧ b1 = 0x81 ∧ b0 = 0x9F)
                ∨ (b2 = 0xE3 ∧ b1 = 0x80 ∧ b0 = 0x80) then 3
            else 0

/-- Strip leading runes whose width is given by `width`, at most `fuel` of them. -/
def stripWhile (width : GoString → Nat) : Nat → GoString → GoString
  | 0, s => s
  | fuel + 1, s =>
    if width s = 0 then s else stripWhile width fuel (s.drop (width s))

/-- Go `strings.TrimSpace(s)`: `s` without leading and trailing white space.
Every strip removes at least one byte, so `length` steps of fuel are enough. -/
def TrimSpace (s : GoString) : GoString :=
  let l := stripWhile spaceWidth s.length s
  (stripWhile spaceWidthRev l.length l.reverse).reverse

/-! ## `net/url` -/

/-- Go `stringContainsCTLByte`: some byte is below `' '` or is `0x7f`. -/
def stringContainsCTLByte (s : GoString) : Bool :=
  s.any fun b => decide (b < 32 ∨ b = 127)

/-- Go `ishex`: the byte is one of `0-9`, `a-f`, `A-F`. -/
def ishex (c : Nat) : Bool :=
  decide ((48 ≤ c ∧ c ≤ 57) ∨ (97 ≤ c ∧ c ≤ 102) ∨ (65 ≤ c ∧ c ≤ 70))

/-- Go `unhex`: value of a hexadecimal digit. -/
def unhex (c : Nat) : Nat :=
  if 48 ≤ c ∧ c ≤ 57 then c - 48
  else if 97 ≤ c ∧ c ≤ 102 then c - 97 + 10
  else if 65 ≤ c ∧ c ≤ 70 then c - 65 + 10
  else 0

/-- Go `unescape(s, mode)` of `net/url` for the modes met here: `%XX` becomes the
byte `XX`, a `%` not followed by two hexadecimal digits is an error (`none`),
and `+` becomes a space when `plus` is set (mode `encodeQueryComponent`);
every other byte is kept. -/
def unescape (plus : Bool) : GoString → Option GoString
  | [] => some []
  | c :: rest =>
    if c = 37 then
      match rest with
      | h1 :: h2 :: rest2 =>
        if ishex h1 ∧ ishex h2 then
          (unescape plus rest2).map fun r => (unhex h1 * 16 + unhex h2) :: r
        else none
      | _ => none
    else if c = 43 ∧ plus then (unescape plus rest).map fun r => 32 :: r
    else (unescape plus rest).map fun r => c :: r

/-- Go `url.QueryUnescape`. -/
def QueryUnescape (s : GoString) : Option GoString := unescape true s

/-- Go `strings.Cut(s, sep)` for a one-byte separator: the text before the first
`sep` and, when `sep` occurs, the text after it. -/
def cutByte (sep : Nat) : GoString → GoString × Option GoString
  | [] => ([], none)
  | b :: rest =>
    if b = sep then ([], some rest)
    else
      let r := cutByte sep rest
      (b :: r.1, r.2)

/-- Go `url.Parse("http://localhost/?" + target)`, reduced to what the caller
reads: `none` when `Parse` returns an error, otherwise the `RawQuery` of the
parsed URL.  Following `Parse` on a raw URL of this shape: the text after the
first `#` is the fragment; the rest must not contain a control byte; scheme
`http`, host `localhost` and path `/` are always accepted; `RawQuery` is the
text between the `?` and the `#`; a fragment that is not empty must unescape. -/
def urlParseRawQuery (target : GoString) : Option GoString :=
  let c := cutByte 35 target
  if stringContainsCTLByte c.1 then none
  else
    match c.2 with
    | none => some c.1
    | some frag =>
      if frag = [] then some c.1
      else
        match unescape false frag with
        | none => none
        | some _ => some c.1

/-- The pieces of `s` between occurrences of the byte `sep`. -/
def splitByte (sep : Nat) : GoString → List GoString
  | [] => [[]]
  | b :: rest =>
    if b = sep then [] :: splitByte sep rest
    else
      match splitByte sep rest with
      | [] => [[b]]
      | h :: t => (b :: h) :: t

/-- One `key=value` item of `parseQuery`: skipped (`none`) when it contains
`;`, is empty, or its key or value does not unescape. -/
def parseQueryItem (item : GoString) : Option (GoString × GoString) :=
  if 59 ∈ item then none
  else if item = [] then none
  else
    let kv := cutByte 61 item
    match QueryUnescape kv.1 with
    | none => none
    | some key =>
      match QueryUnescape (kv.2.getD []) with
      | none => none
      | some value => some (key, value)

/-- Go `(*URL).Query()`, i.e. `ParseQuery(RawQuery)` with its error dropped: the
decoded `key=value` items of the `&`-separated query, in order. -/
def parseQuery (query : GoString) : List (GoString × GoString) :=
  (splitByte 38 query).filterMap parseQueryItem

/-- Go `Values.Get(key)`: the first value stored for `key`, or `""`. -/
def valuesGet (values : List (GoString × GoString)) (key : GoString) : GoString :=
  match values.find? (fun p => p.1 = key) with
  | some p => p.2
  | none => []

/-! ## `cutDigDataFromLine` -/

/-- The `digData` read from a decoded query. -/
def digDataOfValues (values : List (GoString × GoString)) : digData :=
  { url := valuesGet values (bytes "url")
    time := valuesGet values (bytes "time")
    refer := valuesGet values (bytes "refer")
    ua := valuesGet values (bytes "ua") }

/-- Go `cutDigDataFromLine(line)` of `analysis.go`:
```
line = strings.TrimSpace(line)
pre := str.IndexOf(line, PREFIX, 0)
if pre == -1 { return digData{} }
pre += len(PREFIX)
end := str.IndexOf(line, END, pre)
target := str.Substr(line, pre, end-pre)
parse, err := url.Parse("http://localhost/?" + target)
if err != nil { return digData{} }
values := parse.Query()
return digData{values.Get("url"), values.Get("time"), values.Get("refer"), values.Get("ua")}
``` -/
def cutDigDataFromLine (line : GoString) : Option digData :=
  let line := TrimSpace line
  (IndexOf line PREFIX 0).bind fun pre =>
  if pre = -1 then some {}
  else
    let pre := pre + (PREFIX.length : Int)
    (IndexOf line END pre).bind fun end_ =>
    (Substr line pre (end_ - pre)).bind fun target =>
    match urlParseRawQuery target with
    | none => some {}
    | some rawQuery => some (digDataOfValues (parseQuery rawQuery))

/-! ## `crypto/md5` and `encoding/hex` -/

/-- Per-round left-rotation amounts of MD5 (RFC 1321). -/
def md5S : List Nat :=
  [7, 12, 17, 22, 7, 12, 17, 22, 7, 12, 17, 22, 7, 12, 17, 22,
   5, 9, 14, 20, 5, 9, 14, 20, 5, 9, 14, 20, 5, 9, 14, 20,
   4, 11, 16, 23, 4, 11, 16, 23, 4, 11, 16, 23, 4, 11, 16, 23,
   6, 10, 15, 21, 6, 10, 15, 21, 6, 10, 15, 21, 6, 10, 15, 21]

/-- Per-round additive constants of MD5: `floor(2^32 * |sin(i + 1)|)`. -/
def md5K : List Nat :=
  [0xd76aa478, 0xe8c7b756, 0x242070db, 0xc1bdceee,
   0xf57c0faf, 0x4787c62a, 0xa8304613, 0xfd469501,
   0x698098d8, 0x8b44f7af, 0xffff5bb1, 0x895cd7be,
   0x6b901122, 0xfd987193, 0xa679438e, 0x49b40821,
   0xf61e2562, 0xc040b340, 0x265e5a51, 0xe9b6c7aa,
   0xd62f105d, 0x02441453, 0xd8a1e681, 0xe7d3fbc8,
   0x21e1cde6, 0xc33707d6, 0xf4d50d87, 0x455a14ed,
   0xa9e3e905, 0xfcefa3f8, 0x676f02d9, 0x8d2a4c8a,
   0xfffa3942, 0x8771f681, 0x6d9d6122, 0xfde5380c,
   0xa4beea44, 0x4bdecfa9, 0xf6bb4b60, 0xbebfbc70,
   0x289b7ec6, 0xeaa127fa, 0xd4ef3085, 0x04881d05,
   0xd9d4d039, 0xe6db99e5, 0x1fa27cf8, 0xc4ac5665,
   0xf4292244, 0x432aff97, 0xab9423a7, 0xfc93a039,
   0x655b59c3, 0x8f0ccc92, 0xffeff47d, 0x85845dd1,
   0x6fa87e4f, 0xfe2ce6e0, 0xa3014314, 0x4e0811a1,
   0xf7537e82, 0xbd3af235, 0x2ad7d2bb, 0xeb86d391]

/-- Rotate a 32-bit word left by `c` bits. -/
def rotl32 (x c : Nat) : Nat :=
  ((x <<< c) ||| (x >>> (32 - c))) % 2 ^ 32

/-- Bitwise complement of a 32-bit word. -/
def not32 (x : Nat) : Nat := x ^^^ 0xffffffff

/-- The state of MD5: the four 32-bit words `a`, `b`, `c`, `d`. -/
structure Md5State where
  a : Nat
  b : Nat
  c : Nat
  d : Nat
deriving DecidableEq, Repr

/-- The 32-bit little-endian word `g` of a 64-byte block. -/
def md5Word (block : GoString) (g : Nat) : Nat :=
  block.getD (4 * g) 0 + block.getD (4 * g + 1) 0 * 2 ^ 8
    + block.getD (4 * g + 2) 0 * 2 ^ 16 + block.getD (4 * g + 3) 0 * 2 ^ 24

/-- Operation `i` (of 64) of the MD5 compression function. -/
def md5Step (block : GoString) (st : Md5State) (i : Nat) : Md5State :=
  let f :=
    if i < 16 then (st.b &&& st.c) ||| (not32 st.b &&& st.d)
    else if i < 32 then (st.d &&& st.b) ||| (not32 st.d &&& st.c)
    else if i < 48 then st.b ^^^ st.c ^^^ st.d
    else st.c ^^^ (st.b ||| not32 st.d)
  let g :=
    if i < 16 then i
    else if i < 32 then (5 * i + 1) % 16
    else if i < 48 then (3 * i + 5) % 16
    else (7 * i) % 16
  let x := (f + st.a + md5K.getD i 0 + md5Word block g) % 2 ^ 32
  { a := st.d, b := (st.b + rotl32 x (md5S.getD i 0)) % 2 ^ 32, c := st.b, d := st.c }

/-- The MD5 compression function on one 64-byte block. -/
def md5Block (st : Md5State) (block : GoString) : Md5State :=
  let r := (List.range 64).foldl (md5Step block) st
  { a := (st.a + r.a) % 2 ^ 32, b := (st.b + r.b) % 2 ^ 32,
    c := (st.c + r.c) % 2 ^ 32, d := (st.d + r.d) % 2 ^ 32 }

/-- The `n` low bytes of `x`, least significant first. -/
def leBytes : Nat → Nat → GoString
  | 0, _ => []
  | n + 1, x => (x % 256) :: leBytes n (x / 256)

/-- MD5 padding: a `0x80` byte, zero bytes up to 56 modulo 64, and the
message length in bits as a 64-bit little-endian integer. -/
def md5Pad (msg : GoString) : GoString :=
  msg ++ [0x80] ++ List.replicate ((119 - msg.length % 64) % 64) 0
    ++ leBytes 8 ((8 * msg.length) % 2 ^ 64)

/-- The MD5 digest (16 bytes) of `msg`: what `h := md5.New(); h.Write(msg);
h.Sum(nil)` returns. -/
def md5Sum (msg : GoString) : GoString :=
  let p := md5Pad msg
  let st := (List.range (p.length / 64)).foldl
    (fun st k => md5Block st ((p.drop (64 * k)).take 64))
    { a := 0x67452301, b := 0xefcdab89, c := 0x98badcfe, d := 0x10325476 }
  leBytes 4 st.a ++ leBytes 4 st.b ++ leBytes 4 st.c ++ leBytes 4 st.d

/-- The lower-case hexadecimal digit of a value below 16. -/
def hexDigit (n : Nat) : Nat := if n < 10 then 48 + n else 87 + n

/-- Go `hex.EncodeToString`: two lower-case hexadecimal digits per byte. -/
def hexEncodeToString (src : GoString) : GoString :=
  src.flatMap fun b => [hexDigit (b / 16 % 16), hexDigit (b % 16)]

/-! ## The pipeline stages -/

/-- The visitor identity computed in `logCustomer`:
`hex.EncodeToString(md5(data.refer + data.ua))`. -/
def visitorId (refer ua : GoString) : GoString :=
  hexEncodeToString (md5Sum (refer ++ ua))

/-- One iteration of the loop of `logCustomer`, for one line taken from
`logChannel`; the result is the value sent to both `pvChannel` and `uvChannel`:
```
data := cutDigDataFromLine(line)
harsher := md5.New()
harsher.Write([]byte(data.refer + data.ua))
uid := hex.EncodeToString(harsher.Sum(nil))
uData := urlData{data, uid, formatData(data.refer, data.time, uid)}
pvChannel <- uData
uvChannel <- uData
``` -/
def logCustomerStep (line : GoString) : Option urlData :=
  (cutDigDataFromLine line).bind fun data =>
  let uid := visitorId data.refer data.ua
  (formatData data.refer data.time uid).bind fun node =>
  some { data := data, uid := uid, unNode := node }

/-- Go `pvCounter`: the blocks sent to `storageChannel` for the events received
on `pvChannel`:
```
for pv := range pvChannel {
    storageChannel <- storageBlock{counterType: "pv", storageModel: "ZINCREBY", uNode: pv.unNode}
}
``` -/
def pvCounter : List urlData → List storageBlock
  | [] => []
  | pv :: rest =>
    { counterType := bytes "pv", storageModel := bytes "ZINCREBY", uNode := pv.unNode }
      :: pvCounter rest

/-- A reply of the redis client (`*redis.Resp` of radix.v2), as far as
`Int()` tells replies apart: a reply that holds an integer, a reply that holds
none, or an error (of the connection or of the server). -/
inductive Resp where
  | int (n : Int)
  | other
  | err (e : String)
deriving DecidableEq, Repr

/-- Go `(*Resp).Int()` of radix.v2: the integer of a reply that holds one with a
nil error; for every other reply the value `0` together with an error. -/
def Resp.Int : Resp → Int × Option String
  | .int n => (n, none)
  | .other => (0, some "wrong type")
  | .err e => (0, some e)

/-- The block `uvCounter` sends for one event, given the reply to its `PFADD`:
```
res, err := redisPool.Cmd("PFADD", hyperLogLogKey, uv.uid, "EX", 86400).Int()
if err != nil { log.Warningln("uvCounter PFADD redis fail.") }
if res != 1 { continue }
storageChannel <- storageBlock{counterType: "uv", storageModel: "ZINCREBY", uNode: uv.unNode}
``` -/
def uvEmit (reply : Resp) (uv : urlData) : List storageBlock :=
  let r := reply.Int
  if r.1 ≠ 1 then []
  else [{ counterType := bytes "uv", storageModel := bytes "ZINCREBY", uNode := uv.unNode }]

/-- The arguments of the command `uvCounter` issues for an event: the key
`"uv_hpll_" + uv.data.refer`, then `uv.uid`, `"EX"`, `86400`. -/
def uvCommandArgs (uv : urlData) : List GoString :=
  [bytes "uv_hpll_" ++ uv.data.refer, uv.uid, bytes "EX", bytes "86400"]

/-- Go `uvCounter`: the blocks sent to `storageChannel` for the events received
on `uvChannel`.  The redis pool is a state `σ` with a command function
`cmd state name args` returning the new state and the reply. -/
def uvCounter {σ : Type} (cmd : σ → GoString → List GoString → σ × Resp) :
    σ → List urlData → List storageBlock
  | _, [] => []
  | st, uv :: rest =>
    let r := cmd st (bytes "PFADD") (uvCommandArgs uv)
    uvEmit r.2 uv ++ uvCounter cmd r.1 rest

/-- The dedup store of the scenario, an exact add-if-absent set per key (the
spec's `ADD_IF_ABSENT(key, member, ttl)`; the real store is external): the state is the
list of (key, member) pairs added so far; a command with key `k` and member
`m` replies `1` and adds the pair when it is absent, and replies `0` when it
is present. -/
def exactStore (st : List (GoString × GoString)) (_name : GoString)
    (args : List GoString) : List (GoString × GoString) × Resp :=
  match args with
  | key :: member :: _ =>
    if (key, member) ∈ st then (st, .int 0) else ((key, member) :: st, .int 1)
  | _ => (st, .err "wrong number of arguments")

/-- The error side of one `reader.ReadLine()` call. -/
inductive ReadError where
  | eof
  | failure
deriving DecidableEq, Repr

/-- The result `(line, _, err)` of one `reader.ReadLine()` call. -/
structure ReadResult where
  line : GoString
  err : Option ReadError
deriving DecidableEq, Repr

/-- One iteration of the loop of `readFileByLine`, as the strings it sends to
`logChannel`; the line is sent before `err` is looked at:
```
line, _, err := reader.ReadLine()
logChannel <- string(line)
count++
...
if err != nil { ... time.Sleep / log ... }
``` -/
def readStep (r : ReadResult) : List GoString := [r.line]

/-- Go `readFileByLine`: the strings sent to `logChannel` over a finite run of
`ReadLine` results. -/
def readFileByLine : List ReadResult → List GoString
  | [] => []
  | r :: rest => readStep r ++ readFileByLine rest

/-- The lines that were read successfully, in order. -/
def linesRead : List ReadResult → List GoString
  | [] => []
  | r :: rest =>
    match r.err with
    | none => r.line :: linesRead rest
    | some _ => linesRead rest

/-! ## Two user agents with the same MD5 digest -/

/-- A 128-byte message of a known MD5 collision pair (Wang et al.). -/
def collisionBlockA : GoString :=
  [0xd1, 0x31, 0xdd, 0x02, 0xc5, 0xe6, 0xee, 0xc4, 0x69, 0x3d, 0x9a, 0x06, 0x98, 0xaf, 0xf9, 0x5c,
   0x2f, 0xca, 0xb5, 0x87, 0x12, 0x46, 0x7e, 0xab, 0x40, 0x04, 0x58, 0x3e, 0xb8, 0xfb, 0x7f, 0x89,
   0x55, 0xad, 0x34, 0x06, 0x09, 0xf4, 0xb3, 0x02, 0x83, 0xe4, 0x88, 0x83, 0x25, 0x71, 0x41, 0x5a,
   0x08, 0x51, 0x25, 0xe8, 0xf7, 0xcd, 0xc9, 0x9f, 0xd9, 0x1d, 0xbd, 0xf2, 0x80, 0x37, 0x3c, 0x5b,
   0xd8, 0x82, 0x3e, 0x31, 0x56, 0x34, 0x8f, 0x5b, 0xae, 0x6d, 0xac, 0xd4, 0x36, 0xc9, 0x19, 0xc6,
   0xdd, 0x53, 0xe2, 0xb4, 0x87, 0xda, 0x03, 0xfd, 0x02, 0x39, 0x63, 0x06, 0xd2, 0x48, 0xcd, 0xa0,
   0xe9, 0x9f, 0x33, 0x42, 0x0f, 0x57, 0x7e, 0xe8, 0xce, 0x54, 0xb6, 0x70, 0x80, 0xa8, 0x0d, 0x1e,
   0xc6, 0x98, 0x21, 0xbc, 0xb6, 0xa8, 0x83, 0x93, 0x96, 0xf9, 0x65, 0x2b, 0x6f, 0xf7, 0x2a, 0x70]

/-- The other message of the pair: it differs from `collisionBlockA` in six
bytes and has the same MD5 digest. -/
def collisionBlockB : GoString :=
  [0xd1, 0x31, 0xdd, 0x02, 0xc5, 0xe6, 0xee, 0xc4, 0x69, 0x3d, 0x9a, 0x06, 0x98, 0xaf, 0xf9, 0x5c,
   0x2f, 0xca, 0xb5, 0x07, 0x12, 0x46, 0x7e, 0xab, 0x40, 0x04, 0x58, 0x3e, 0xb8, 0xfb, 0x7f, 0x89,
   0x55, 0xad, 0x34, 0x06, 0x09, 0xf4, 0xb3, 0x02, 0x83, 0xe4, 0x88, 0x83, 0x25, 0xf1, 0x41, 0x5a,
   0x08, 0x51, 0x25, 0xe8, 0xf7, 0xcd, 0xc9, 0x9f, 0xd9, 0x1d, 0xbd, 0x72, 0x80, 0x37, 0x3c, 0x5b,
   0xd8, 0x82, 0x3e, 0x31, 0x56, 0x34, 0x8f, 0x5b, 0xae, 0x6d, 0xac, 0xd4, 0x36, 0xc9, 0x19, 0xc6,
   0xdd, 0x53, 0xe2, 0x34, 0x87, 0xda, 0x03, 0xfd, 0x02, 0x39, 0x63, 0x06, 0xd2, 0x48, 0xcd, 0xa0,
   0xe9, 0x9f, 0x33, 0x42, 0x0f, 0x57, 0x7e, 0xe8, 0xce, 0x54, 0xb6, 0x70, 0x80, 0x28, 0x0d, 0x1e,
   0xc6, 0x98, 0x21, 0xbc, 0xb6, 0xa8, 0x83, 0x93, 0x96, 0xf9, 0x65, 0xab, 0x6f, 0xf7, 0x2a, 0x70]

/-- A log line without `refer` whose `ua` is `collisionBlockA`, URL-encoded. -/
def collisionLineA : GoString :=
  bytes "GET /dig?url=u&time=t&ua=%D1%31%DD%02%C5%E6%EE%C4%69%3D%9A%06%98%AF%F9%5C%2F%CA%B5%87%12%46%7E%AB%40%04%58%3E%B8%FB%7F%89%55%AD%34%06%09%F4%B3%02%83%E4%88%83%25%71%41%5A%08%51%25%E8%F7%CD%C9%9F%D9%1D%BD%F2%80%37%3C%5B%D8%82%3E%31%56%34%8F%5B%AE%6D%AC%D4%36%C9%19%C6%DD%53%E2%B4%87%DA%03%FD%02%39%63%06%D2%48%CD%A0%E9%9F%33%42%0F%57%7E%E8%CE%54%B6%70%80%A8%0D%1E%C6%98%21%BC%B6%A8%83%93%96%F9%65%2B%6F%F7%2A%70 HTTP/1.1"

/-- A log line without `refer` whose `ua` is `collisionBlockB`, URL-encoded. -/
def collisionLineB : GoString :=
  bytes "GET /dig?url=u&time=t&ua=%D1%31%DD%02%C5%E6%EE%C4%69%3D%9A%06%98%AF%F9%5C%2F%CA%B5%07%12%46%7E%AB%40%04%58%3E%B8%FB%7F%89%55%AD%34%06%09%F4%B3%02%83%E4%88%83%25%F1%41%5A%08%51%25%E8%F7%CD%C9%9F%D9%1D%BD%72%80%37%3C%5B%D8%82%3E%31%56%34%8F%5B%AE%6D%AC%D4%36%C9%19%C6%DD%53%E2%34%87%DA%03%FD%02%39%63%06%D2%48%CD%A0%E9%9F%33%42%0F%57%7E%E8%CE%54%B6%70%80%28%0D%1E%C6%98%21%BC%B6%A8%83%93%96%F9%65%AB%6F%F7%2A%70 HTTP/1.1"

/-- The event the worker sends for `collisionLineA`. -/
def collisionEventA : urlData :=
  { data := { url := bytes "u", time := bytes "t", refer := [],
              ua := collisionBlockA ++ bytes " " }
    uid := bytes "ba16a18a326a82018468e05d53879fd5"
    unNode := {} }

/-- The event the worker sends for `collisionLineB`. -/
def collisionEventB : urlData :=
  { data := { url := bytes "u", time := bytes "t", refer := [],
              ua := collisionBlockB ++ bytes " " }
    uid := bytes "ba16a18a326a82018468e05d53879fd5"
    unNode := {} }
/-! ## Closed forms used in the proofs -/

/-- The record `formatData` builds, without the library calls: the URL must
contain `"http://"` somewhere, its first seven bytes are dropped whatever they
are, and the route is everything after the first `"/"` of the remainder. -/
def formatDataSpec (url time uid : GoString) : urlNode :=
  match firstIndex url RoutePrefix with
  | none => {}
  | some _ =>
    match firstIndex (url.drop 7) [47] with
    | none => {}
    | some i => { unType := (url.drop 7).drop (i + 1), unRid := uid, unUrl := url, unTime := time }


/-- The text `cutDigDataFromLine` decodes, for a trimmed line: what lies
between the first `"dig?"` and the first `"HTTP"` after it, empty when
`"HTTP"` does not follow; `none` when the line has no `"dig?"`. -/
def digTarget (trimmed : GoString) : Option GoString :=
  match firstIndex trimmed PREFIX with
  | none => none
  | some i =>
    match firstIndex (trimmed.drop (i + 4)) END with
    | none => some []
    | some j => some ((trimmed.drop (i + 4)).take j)

/-- The record decoded from the text between the markers. -/
def digDataOfTarget (target : GoString) : digData :=
  match urlParseRawQuery target with
  | none => {}
  | some rawQuery => digDataOfValues (parseQuery rawQuery)

/-- The record `cutDigDataFromLine` returns, without the library calls. -/
def cutDigDataSpec (line : GoString) : digData :=
  match digTarget (TrimSpace line) with
  | none => {}
  | some target => digDataOfTarget target

/-! ## Basic facts about the string helpers -/

theorem PREFIX_eq : PREFIX = [100, 105, 103, 63] := by decide
theorem END_eq : END = [72, 84, 84, 80] := by decide
theorem RoutePrefix_eq : RoutePrefix = [104, 116, 116, 112, 58, 47, 47] := by decide
theorem slash_eq : bytes "/" = [47] := by decide

theorem goSlice_eq (s : GoString) (lo hi : Nat) (h1 : lo ≤ hi) (h2 : hi ≤ s.length) :
    goSlice s lo hi = some ((s.drop lo).take (hi - lo)) := by
  unfold goSlice
  have h : (0 : Int) ≤ lo ∧ (lo : Int) ≤ hi ∧ (hi : Int) ≤ (s.length : Int) := by omega
  rw [if_pos h]
  congr 2
  omega

/-- The function `Substr` never panics; for a non-negative index it is `drop` then `take`. -/
theorem Substr_eq (s : GoString) (index : Nat) (n : Int) :
    Substr s index n = some ((s.drop index).take n.toNat) := by
  unfold Substr
  simp only []
  by_cases h1 : ((index : Int) < 0 ∨ (index : Int) ≥ (s.length : Int) ∨ s = [])
  · rw [if_pos h1]
    have : s.length ≤ index := by
      rcases h1 with h | h | h
      · omega
      · omega
      · subst h; simp
    rw [List.drop_eq_nil_of_le this]; simp
  · rw [if_neg h1]
    push_neg at h1
    obtain ⟨_, h3, _⟩ := h1
    have h3 : index < s.length := by omega
    by_cases h4 : (index : Int) + n ≥ (s.length : Int)
    · rw [if_pos h4]
      have h5 : ¬ ((s.length : Int) ≤ (index : Int)) := by omega
      rw [if_neg h5]
      rw [goSlice_eq s index s.length (by omega) (le_refl _)]
      congr 1
      rw [List.take_of_length_le, List.take_of_length_le]
      · simp; omega
      · simp
    · rw [if_neg h4]
      by_cases h5 : (index : Int) + n ≤ (index : Int)
      · rw [if_pos h5]
        have : n.toNat = 0 := by omega
        rw [this]; simp
      · rw [if_neg h5]
        have h6 : (index : Int) + n = ((index + n.toNat : Nat) : Int) := by omega
        rw [h6, goSlice_eq s index (index + n.toNat) (by omega) (by omega)]
        congr 2
        omega

theorem Substr_neg (s : GoString) (index n : Int) (h : index < 0) :
    Substr s index n = some [] := by
  unfold Substr
  simp [h]

/-- The function `IndexOf` never panics; for a non-empty needle and a non-negative start
it is the first occurrence at or after `start`. -/
theorem IndexOf_eq (s needle : GoString) (start : Nat) (hn : needle ≠ []) :
    IndexOf s needle start =
      some (match firstIndex (s.drop start) needle with
            | some i => ((start + i : Nat) : Int)
            | none => -1) := by
  unfold IndexOf
  simp only [if_neg hn]
  by_cases h1 : ((start : Int) < 0 ∨ (start : Int) > (s.length : Int) - 1)
  · rw [if_pos h1]
    have : s.length ≤ start := by omega
    rw [List.drop_eq_nil_of_le this]
    cases needle with
    | nil => exact absurd rfl hn
    | cons a t => simp [firstIndex, List.isPrefixOf]
  · rw [if_neg h1]
    have h2 : start ≤ s.length := by omega
    rw [goSlice_eq s start s.length h2 (le_refl _)]
    have h3 : List.take (s.length - start) (List.drop start s) = List.drop start s := by
      apply List.take_of_length_le; simp
    simp only [Option.bind, h3, stringsIndex]
    cases firstIndex (List.drop start s) needle with
    | none => simp
    | some i =>
      have : ¬ ((i : Int) = -1) := by omega
      simp [this]


/-! ## First occurrences -/

theorem firstIndex_at_start (s sep : GoString) (h : sep <+: s) :
    firstIndex s sep = some 0 := by
  have h' : sep.isPrefixOf s = true := List.isPrefixOf_iff_prefix.mpr h
  cases s with
  | nil => simp [firstIndex, h']
  | cons c t => simp [firstIndex, h']

theorem firstIndex_cons_skip (c : Nat) (t sep : GoString)
    (h : ¬ sep <+: c :: t) :
    firstIndex (c :: t) sep = (firstIndex t sep).map (· + 1) := by
  have h' : ¬ (sep.isPrefixOf (c :: t) = true) := fun e => h (List.isPrefixOf_iff_prefix.mp e)
  simp [firstIndex, h']

/-- What a found position means: `sep` occurs there and nowhere before. -/
theorem firstIndex_some (s sep : GoString) (i : Nat) (h : firstIndex s sep = some i) :
    i ≤ s.length ∧ sep <+: s.drop i ∧ ∀ j, j < i → ¬ sep <+: s.drop j := by
  induction s generalizing i with
  | nil =>
    by_cases hp : sep.isPrefixOf ([] : GoString) = true
    · simp [firstIndex, hp] at h
      subst h
      exact ⟨le_refl _, List.isPrefixOf_iff_prefix.mp hp, fun j hj => absurd hj (Nat.not_lt_zero j)⟩
    · simp [firstIndex, hp] at h
  | cons c t ih =>
    by_cases hp : sep <+: c :: t
    · rw [firstIndex_at_start _ _ hp] at h
      injection h with h
      subst h
      exact ⟨Nat.zero_le _, hp, fun j hj => absurd hj (Nat.not_lt_zero j)⟩
    · rw [firstIndex_cons_skip _ _ _ hp] at h
      cases hf : firstIndex t sep with
      | none => rw [hf] at h; simp at h
      | some k =>
        rw [hf] at h
        simp at h
        subst h
        obtain ⟨h1, h2, h3⟩ := ih k hf
        refine ⟨by simp; omega, by simpa using h2, ?_⟩
        intro j hj
        cases j with
        | zero => simpa using hp
        | succ j => simpa using h3 j (by omega)

/-- A position where `sep` occurs, with no occurrence before it, is the one found. -/
theorem firstIndex_eq_some (s sep : GoString) (i : Nat)
    (h2 : sep <+: s.drop i) (h3 : ∀ j, j < i → ¬ sep <+: s.drop j) :
    firstIndex s sep = some i := by
  induction s generalizing i with
  | nil =>
    have : sep <+: ([] : GoString) := by simpa using h2
    cases i with
    | zero => exact firstIndex_at_start _ _ this
    | succ i => exact absurd (by simpa using this) (h3 0 (Nat.succ_pos _))
  | cons c t ih =>
    cases i with
    | zero => exact firstIndex_at_start _ _ (by simpa using h2)
    | succ i =>
      have hp : ¬ sep <+: c :: t := by simpa using h3 0 (Nat.succ_pos _)
      rw [firstIndex_cons_skip _ _ _ hp]
      rw [ih i (by simpa using h2) (fun j hj => by simpa using h3 (j + 1) (by omega))]
      rfl

theorem firstIndex_none_iff (s sep : GoString) :
    firstIndex s sep = none ↔ ¬ sep <:+: s := by
  induction s with
  | nil =>
    by_cases hp : sep.isPrefixOf ([] : GoString) = true
    · have := List.isPrefixOf_iff_prefix.mp hp
      simp only [firstIndex]
      rw [if_pos hp]
      constructor
      · intro e; cases e
      · intro hs; exact absurd this.isInfix hs
    · have hp' : ¬ sep <+: ([] : GoString) := fun e => hp (List.isPrefixOf_iff_prefix.mpr e)
      simp only [firstIndex]
      rw [if_neg hp]
      simp only [true_iff]
      intro hs
      apply hp'
      have := List.eq_nil_of_infix_nil hs
      subst this
      exact List.prefix_refl _
  | cons c t ih =>
    by_cases hp : sep <+: c :: t
    · rw [firstIndex_at_start _ _ hp]
      simp
      exact hp.isInfix
    · rw [firstIndex_cons_skip _ _ _ hp]
      rw [Option.map_eq_none', ih, List.infix_cons_iff]
      tauto

theorem firstIndex_isSome_iff (s sep : GoString) :
    (∃ i, firstIndex s sep = some i) ↔ sep <:+: s := by
  rw [← not_iff_not, ← firstIndex_none_iff]
  cases firstIndex s sep <;> simp

/-- First occurrence of a single byte that is not in the part before it. -/
theorem firstIndex_byte (a b : GoString) (c : Nat) (h : c ∉ a) :
    firstIndex (a ++ c :: b) [c] = some a.length := by
  apply firstIndex_eq_some
  · simp
  · intro j hj hp
    rw [List.drop_append_of_le_length (by omega)] at hp
    have hmem : c ∈ List.drop j a ++ c :: b := hp.subset (List.mem_singleton_self c)
    have hne : List.drop j a ≠ [] := by
      intro e
      have := congrArg List.length e
      simp at this
      omega
    cases hd : List.drop j a with
    | nil => exact hne hd
    | cons x xs =>
      rw [hd] at hp
      have : c = x := by
        obtain ⟨r, hr⟩ := hp
        simp at hr
        exact hr.1
      apply h
      have hx : x ∈ List.drop j a := by rw [hd]; exact List.mem_cons_self _ _
      rw [this]
      exact List.mem_of_mem_drop hx

theorem firstIndex_byte_none (s : GoString) (c : Nat) (h : c ∉ s) :
    firstIndex s [c] = none := by
  rw [firstIndex_none_iff]
  intro hi
  exact h (hi.subset (List.mem_singleton_self c))


theorem IndexOf_zero (s needle : GoString) (hn : needle ≠ []) :
    IndexOf s needle 0 =
      some (match firstIndex s needle with
            | some i => (i : Int)
            | none => -1) := by
  have h := IndexOf_eq s needle 0 hn
  simp only [Nat.cast_zero, List.drop_zero, Nat.zero_add] at h
  exact h

/-! ## `formatData` in closed form -/

/-- The function `formatData` never panics and computes `formatDataSpec`. -/
theorem formatData_eq (url time uid : GoString) :
    formatData url time uid = some (formatDataSpec url time uid) := by
  unfold formatData formatDataSpec
  rw [IndexOf_zero url RoutePrefix (by decide)]
  cases h1 : firstIndex url RoutePrefix with
  | none => simp
  | some k =>
    have hk : ¬ ((k : Int) = -1) := by omega
    simp only [Option.bind, ne_eq, hk, not_false_eq_true, if_true]
    rw [Substr_eq url RoutePrefix.length]
    have hlen : RoutePrefix.length = 7 := by decide
    have htake : List.take ((url.length : Int) - (RoutePrefix.length : Int)).toNat
        (List.drop RoutePrefix.length url) = List.drop 7 url := by
      rw [hlen]
      apply List.take_of_length_le
      simp
      omega
    simp only [htake]
    rw [IndexOf_zero (List.drop 7 url) (bytes "/") (by decide), slash_eq]
    cases h2 : firstIndex (List.drop 7 url) [47] with
    | none => simp
    | some i =>
      have hi : ¬ ((i : Int) = -1) := by omega
      simp only [hi, not_false_eq_true, if_true]
      have hc : (i : Int) + (([47] : GoString).length : Int) = ((i + 1 : Nat) : Int) := by
        simp
      rw [hc, Substr_eq]
      have hpos := (firstIndex_some _ _ _ h2).1
      have ht : List.take (((List.drop 7 url).length : Int) - 1).toNat
          (List.drop (i + 1) (List.drop 7 url)) = List.drop (i + 1) (List.drop 7 url) := by
        apply List.take_of_length_le
        simp only [List.length_drop] at hpos ⊢
        omega
      simp only [ht]


/-! ## `cutDigDataFromLine` in closed form -/

/-- The function `cutDigDataFromLine` never panics and computes `cutDigDataSpec`. -/
theorem cutDigDataFromLine_eq (line : GoString) :
    cutDigDataFromLine line = some (cutDigDataSpec line) := by
  have key : ∀ target : GoString,
      (match urlParseRawQuery target with
        | none => some ({} : digData)
        | some rawQuery => some (digDataOfValues (parseQuery rawQuery)))
        = some (digDataOfTarget target) := by
    intro target
    unfold digDataOfTarget
    cases urlParseRawQuery target <;> rfl
  unfold cutDigDataFromLine cutDigDataSpec digTarget
  simp only []
  rw [IndexOf_zero (TrimSpace line) PREFIX (by decide)]
  cases h1 : firstIndex (TrimSpace line) PREFIX with
  | none => simp
  | some i =>
    have hi : ¬ ((i : Int) = -1) := by omega
    have hlen : (PREFIX.length : Int) = 4 := by decide
    have hc : (i : Int) + (PREFIX.length : Int) = ((i + 4 : Nat) : Int) := by
      rw [hlen]; simp
    simp only [Option.bind, hi, if_false, hc]
    rw [IndexOf_eq (TrimSpace line) END (i + 4) (by decide)]
    cases h2 : firstIndex (List.drop (i + 4) (TrimSpace line)) END with
    | none =>
      simp only []
      rw [Substr_eq]
      have : ((-1 : Int) - ((i + 4 : Nat) : Int)).toNat = 0 := by omega
      rw [this, List.take_zero]
      exact key []
    | some j =>
      simp only []
      rw [Substr_eq]
      have : ((((i + 4 + j : Nat) : Int)) - ((i + 4 : Nat) : Int)).toNat = j := by omega
      rw [this]
      exact key (List.take j (List.drop (i + 4) (TrimSpace line)))

/-! ## `TrimSpace` returns a part of its argument -/

theorem stripWhile_suffix (width : GoString → Nat) (fuel : Nat) (s : GoString) :
    stripWhile width fuel s <:+ s := by
  induction fuel generalizing s with
  | zero => exact List.suffix_refl s
  | succ n ih =>
    unfold stripWhile
    by_cases h : width s = 0
    · rw [if_pos h]
    · rw [if_neg h]
      exact (ih _).trans (List.drop_suffix _ _)

theorem TrimSpace_part (s : GoString) : TrimSpace s <:+: s := by
  unfold TrimSpace
  simp only []
  have h1 := stripWhile_suffix spaceWidth s.length s
  have h2 := stripWhile_suffix spaceWidthRev (stripWhile spaceWidth s.length s).length
    (stripWhile spaceWidth s.length s).reverse
  have h3 := List.reverse_prefix.mpr h2
  rw [List.reverse_reverse] at h3
  exact h3.isInfix.trans h1.isInfix


/-- The fuel `TrimSpace` gives to `stripWhile` is enough: with fuel at least
the length, nothing is left to strip. -/
theorem stripWhile_done (width : GoString → Nat) (hw : width [] = 0) (fuel : Nat)
    (s : GoString) (h : s.length ≤ fuel) :
    width (stripWhile width fuel s) = 0 := by
  induction fuel generalizing s with
  | zero =>
    have : s = [] := List.length_eq_zero.mp (Nat.le_zero.mp h)
    subst this
    exact hw
  | succ n ih =>
    unfold stripWhile
    by_cases h0 : width s = 0
    · rw [if_pos h0]; exact h0
    · rw [if_neg h0]
      apply ih
      rw [List.length_drop]
      omega

/-- What `TrimSpace` returns does not end with white space, and before the
trailing white space was removed it did not start with white space. -/
theorem TrimSpace_done (s : GoString) :
    spaceWidth (stripWhile spaceWidth s.length s) = 0 ∧
    spaceWidthRev (TrimSpace s).reverse = 0 := by
  refine ⟨stripWhile_done spaceWidth rfl _ _ (le_refl _), ?_⟩
  unfold TrimSpace
  simp only [List.reverse_reverse]
  exact stripWhile_done spaceWidthRev rfl _ _ (by simp)

/-! ## Route extraction (`formatData`) -/

theorem formatDataSpec_with_scheme (host tail time uid : GoString) (hhost : 47 ∉ host) :
    formatDataSpec (RoutePrefix ++ host ++ 47 :: tail) time uid =
      { unType := tail, unRid := uid, unUrl := RoutePrefix ++ host ++ 47 :: tail,
        unTime := time } := by
  unfold formatDataSpec
  have h1 : firstIndex (RoutePrefix ++ host ++ 47 :: tail) RoutePrefix = some 0 := by
    apply firstIndex_at_start
    rw [List.append_assoc]
    exact List.prefix_append _ _
  have h2 : List.drop 7 (RoutePrefix ++ host ++ 47 :: tail) = host ++ 47 :: tail := by
    rw [List.append_assoc]
    have : RoutePrefix.length = 7 := by decide
    rw [← this, List.drop_left]
  rw [h1]
  simp only [h2]
  rw [firstIndex_byte host tail 47 hhost]
  simp only []
  have h3 : List.drop (host.length + 1) (host ++ 47 :: tail) = tail := by
    rw [show host ++ 47 :: tail = (host ++ [47]) ++ tail by simp]
    have : (host ++ [47]).length = host.length + 1 := by simp
    rw [← this, List.drop_left]
  rw [h3]

/-- C1 (amended): for every URL `"http://" ++ host ++ "/" ++ seg ++ "/" ++ rest`
whose `host` contains no `"/"` (byte 47), `formatData` returns the record whose
route `unType` is the whole remainder after the first `"/"` that follows the
host, `seg ++ "/" ++ rest`, and whose other fields are `uid`, the URL and
`time`. -/
theorem formatData_route_is_rest_of_path (host seg rest time uid : GoString)
    (hhost : 47 ∉ host) :
    formatData (bytes "http://" ++ host ++ bytes "/" ++ seg ++ bytes "/" ++ rest) time uid =
      some { unType := seg ++ bytes "/" ++ rest
             unRid := uid
             unUrl := bytes "http://" ++ host ++ bytes "/" ++ seg ++ bytes "/" ++ rest
             unTime := time } := by
  rw [formatData_eq]
  have hp : bytes "http://" = RoutePrefix := rfl
  have hu : bytes "http://" ++ host ++ bytes "/" ++ seg ++ bytes "/" ++ rest
      = RoutePrefix ++ host ++ 47 :: (seg ++ bytes "/" ++ rest) := by
    rw [hp, slash_eq]; simp
  rw [hu, formatDataSpec_with_scheme host _ time uid hhost]

/-- C1 (witness): the amended statement at `"http://site.com/home/page"`, whose
route is `"home/page"`. -/
theorem formatData_route_is_rest_of_path_witness :
    47 ∉ bytes "site.com" ∧
    formatData (bytes "http://" ++ bytes "site.com" ++ bytes "/" ++ bytes "home"
        ++ bytes "/" ++ bytes "page") (bytes "2024-01-01T00:00:00") (bytes "uid") =
      some { unType := bytes "home" ++ bytes "/" ++ bytes "page"
             unRid := bytes "uid"
             unUrl := bytes "http://" ++ bytes "site.com" ++ bytes "/" ++ bytes "home"
               ++ bytes "/" ++ bytes "page"
             unTime := bytes "2024-01-01T00:00:00" } :=
  ⟨by decide,
   formatData_route_is_rest_of_path (bytes "site.com") (bytes "home") (bytes "page")
     (bytes "2024-01-01T00:00:00") (bytes "uid") (by decide)⟩

/-- C1 (counterexample): `"http://site.com/home/page"` has the shape of the
claim (host `"site.com"`, first segment `"home"`, both non-empty and without
`"/"`), yet the route `formatData` returns is `"home/page"`, not `"home"`. -/
theorem formatData_route_counterexample :
    bytes "http://site.com/home/page"
        = bytes "http://" ++ bytes "site.com" ++ bytes "/" ++ bytes "home"
            ++ bytes "/" ++ bytes "page" ∧
    bytes "site.com" ≠ [] ∧ bytes "home" ≠ [] ∧
    47 ∉ bytes "site.com" ∧ 47 ∉ bytes "home" ∧
    (formatData (bytes "http://site.com/home/page") (bytes "2024-01-01T00:00:00")
        (bytes "uid")).map (fun r => r.unType) = some (bytes "home/page") ∧
    (formatData (bytes "http://site.com/home/page") (bytes "2024-01-01T00:00:00")
        (bytes "uid")).map (fun r => r.unType) ≠ some (bytes "home") := by
  decide

/-- C2 (the code at the failing input): `"https://site.com/?from=http://ref.com"`
does not begin with `"http://"`, but `"http://"` occurs in it, so `formatData`
drops its first seven bytes `"https:/"` and returns a record that is not empty,
with route `"site.com/?from=http://ref.com"`. -/
theorem formatData_scheme_not_at_start :
    ¬ (bytes "http://" <+: bytes "https://site.com/?from=http://ref.com") ∧
    formatData (bytes "https://site.com/?from=http://ref.com")
        (bytes "2024-01-01T00:00:00") (bytes "uid") =
      some { unType := bytes "site.com/?from=http://ref.com"
             unRid := bytes "uid"
             unUrl := bytes "https://site.com/?from=http://ref.com"
             unTime := bytes "2024-01-01T00:00:00" } ∧
    formatData (bytes "https://site.com/?from=http://ref.com")
        (bytes "2024-01-01T00:00:00") (bytes "uid") ≠ some {} := by
  decide

/-! ## Lines without a well-formed marker (`cutDigDataFromLine`) -/

/-- Among two occurrences of `sep`, what follows the later one is a suffix of
what follows the earlier one. -/
theorem suffix_of_later_occurrence (a b a' b' sep : GoString)
    (h : a ++ sep ++ b = a' ++ sep ++ b') (hle : a.length ≤ a'.length) :
    b' <:+ b := by
  have h1 : List.drop ((a' ++ sep).length) (a' ++ sep ++ b') = b' := List.drop_left _ _
  have h2 : List.drop ((a ++ sep).length + (a'.length - a.length)) (a ++ sep ++ b)
      = List.drop (a'.length - a.length) b := List.drop_append _
  have h3 : (a' ++ sep).length = (a ++ sep).length + (a'.length - a.length) := by
    simp only [List.length_append]; omega
  rw [← h, h3, h2] at h1
  rw [← h1]
  exact List.drop_suffix _ _

/-- The position `firstIndex` finds is not after any occurrence. -/
theorem firstIndex_le_occurrence (s sep : GoString) (i : Nat)
    (h : firstIndex s sep = some i) (a b : GoString) (hs : s = a ++ sep ++ b) :
    i ≤ a.length := by
  by_contra hlt
  have hlt : a.length < i := by omega
  apply (firstIndex_some s sep i h).2.2 a.length hlt
  rw [hs, List.append_assoc, List.drop_left]
  exact List.prefix_append _ _

theorem digDataOfTarget_nil : digDataOfTarget [] = {} := by decide

theorem cutDigDataSpec_no_dig (line : GoString) (h : ¬ PREFIX <:+: line) :
    cutDigDataSpec line = {} := by
  unfold cutDigDataSpec digTarget
  have h1 : firstIndex (TrimSpace line) PREFIX = none := by
    rw [firstIndex_none_iff]
    exact fun hi => h (hi.trans (TrimSpace_part line))
  rw [h1]

theorem cutDigDataSpec_no_end (line a b : GoString) (hline : line = a ++ PREFIX ++ b)
    (hfirst : ∀ a' b' : GoString, line = a' ++ PREFIX ++ b' → a.length ≤ a'.length)
    (hend : ¬ END <:+: b) :
    cutDigDataSpec line = {} := by
  unfold cutDigDataSpec digTarget
  cases h1 : firstIndex (TrimSpace line) PREFIX with
  | none => rfl
  | some i =>
    obtain ⟨p, s, hps⟩ := TrimSpace_part line
    obtain ⟨_, ⟨y, hy⟩, _⟩ := firstIndex_some _ _ _ h1
    have ht : TrimSpace line = List.take i (TrimSpace line) ++ PREFIX ++ y := by
      rw [List.append_assoc, hy, List.take_append_drop]
    have hl : line = (p ++ List.take i (TrimSpace line)) ++ PREFIX ++ (y ++ s) := by
      have e : p ++ TrimSpace line ++ s
          = (p ++ List.take i (TrimSpace line)) ++ PREFIX ++ (y ++ s) := by
        conv_lhs => rw [ht]
        simp only [List.append_assoc]
      exact hps.symm.trans e
    have hle := hfirst _ _ hl
    have hsuf : (y ++ s) <:+ b :=
      suffix_of_later_occurrence a b _ (y ++ s) PREFIX (hline ▸ hl) hle
    have hdrop : List.drop (i + 4) (TrimSpace line) = y := by
      have h4 : PREFIX.length = 4 := by decide
      rw [← List.drop_drop, ← hy, ← h4, List.drop_left]
    have h2 : firstIndex (List.drop (i + 4) (TrimSpace line)) END = none := by
      rw [firstIndex_none_iff, hdrop]
      intro hi
      exact hend ((hi.trans (List.prefix_append y s).isInfix).trans hsuf.isInfix)
    simp only [h2]
    exact digDataOfTarget_nil

/-- C6: `cutDigDataFromLine` returns for every line (it never panics); it
returns the record with all four fields empty for every line in which `"dig?"`
does not occur, and for every line `a ++ "dig?" ++ b` in which this is the
first `"dig?"` and `"HTTP"` does not occur in `b`, in particular when `b` is
empty, the line ending exactly with `"dig?"`. -/
theorem cutDigDataFromLine_missing_marker (line : GoString) :
    (∃ d, cutDigDataFromLine line = some d) ∧
    (¬ bytes "dig?" <:+: line →
      cutDigDataFromLine line = some { url := [], time := [], refer := [], ua := [] }) ∧
    (∀ a b : GoString, line = a ++ bytes "dig?" ++ b →
      (∀ a' b' : GoString, line = a' ++ bytes "dig?" ++ b' → a.length ≤ a'.length) →
      ¬ bytes "HTTP" <:+: b →
      cutDigDataFromLine line = some { url := [], time := [], refer := [], ua := [] }) := by
  have hP : bytes "dig?" = PREFIX := rfl
  have hE : bytes "HTTP" = END := rfl
  rw [hP, hE, cutDigDataFromLine_eq]
  refine ⟨⟨_, rfl⟩, ?_, ?_⟩
  · intro h
    rw [cutDigDataSpec_no_dig line h]
  · intro a b hline hfirst hend
    rw [cutDigDataSpec_no_end line a b hline hfirst hend]

/-- C6 (witness): a line without `"dig?"`, a line with `"dig?"` but no `"HTTP"`
after it, and a line that ends exactly with `"dig?"`. -/
theorem cutDigDataFromLine_missing_marker_witness :
    cutDigDataFromLine (bytes "GET /index.html HTTP/1.1")
      = some { url := [], time := [], refer := [], ua := [] } ∧
    cutDigDataFromLine (bytes "HTTP GET /dig?url=a&ua=b")
      = some { url := [], time := [], refer := [], ua := [] } ∧
    cutDigDataFromLine (bytes "GET /dig?")
      = some { url := [], time := [], refer := [], ua := [] } :=
  ⟨(cutDigDataFromLine_missing_marker (bytes "GET /index.html HTTP/1.1")).2.1
      ((firstIndex_none_iff _ _).mp (by decide)),
   (cutDigDataFromLine_missing_marker (bytes "HTTP GET /dig?url=a&ua=b")).2.2
      (bytes "HTTP GET /") (bytes "url=a&ua=b") (by decide)
      (firstIndex_le_occurrence _ _ _ (by decide))
      ((firstIndex_none_iff _ _).mp (by decide)),
   (cutDigDataFromLine_missing_marker (bytes "GET /dig?")).2.2
      (bytes "GET /") [] (by decide)
      (firstIndex_le_occurrence _ _ _ (by decide))
      ((firstIndex_none_iff _ _).mp (by decide))⟩

/-! ## The parser worker (`logCustomer`) -/

theorem hexEncodeToString_ne_nil (src : GoString) (h : src ≠ []) :
    hexEncodeToString src ≠ [] := by
  cases src with
  | nil => exact absurd rfl h
  | cons b t => simp [hexEncodeToString]

theorem md5Sum_length (msg : GoString) : (md5Sum msg).length = 16 := by
  simp [md5Sum, leBytes]

theorem visitorId_length (refer ua : GoString) : (visitorId refer ua).length = 32 := by
  have h := md5Sum_length (refer ++ ua)
  unfold visitorId hexEncodeToString
  generalize md5Sum (refer ++ ua) = d at h
  have : ∀ l : GoString,
      (l.flatMap fun b => [hexDigit (b / 16 % 16), hexDigit (b % 16)]).length = 2 * l.length := by
    intro l
    induction l with
    | nil => rfl
    | cons b t ih => simp only [List.flatMap_cons, List.length_append, ih, List.length_cons,
        List.length_nil]; omega
  rw [this, h]

theorem visitorId_ne_nil (refer ua : GoString) : visitorId refer ua ≠ [] := by
  intro h
  have := visitorId_length refer ua
  rw [h] at this
  simp at this

/-- The function `logCustomerStep` never panics: the event it sends is the parsed record,
the visitor identity of its `refer` and `ua`, and `formatData` of its `refer`. -/
theorem logCustomerStep_eq (line : GoString) :
    logCustomerStep line =
      some { data := cutDigDataSpec line
             uid := visitorId (cutDigDataSpec line).refer (cutDigDataSpec line).ua
             unNode := formatDataSpec (cutDigDataSpec line).refer (cutDigDataSpec line).time
               (visitorId (cutDigDataSpec line).refer (cutDigDataSpec line).ua) } := by
  unfold logCustomerStep
  rw [cutDigDataFromLine_eq]
  simp only [Option.bind]
  rw [formatData_eq]

/-- A record of `formatDataSpec` is empty, or carries `uid`, `url` and `time`
unchanged, with `"http://"` in the URL and a `"/"` after its first seven bytes. -/
theorem formatDataSpec_shape (url time uid : GoString) :
    formatDataSpec url time uid = {} ∨
    ((formatDataSpec url time uid).unRid = uid ∧
     (formatDataSpec url time uid).unUrl = url ∧
     (formatDataSpec url time uid).unTime = time ∧
     RoutePrefix <:+: url ∧ 47 ∈ url.drop 7) := by
  unfold formatDataSpec
  cases h1 : firstIndex url RoutePrefix with
  | none => exact Or.inl rfl
  | some k =>
    cases h2 : firstIndex (List.drop 7 url) [47] with
    | none => exact Or.inl rfl
    | some i =>
      refine Or.inr ⟨rfl, rfl, rfl, ?_, ?_⟩
      · exact (firstIndex_isSome_iff _ _).mp ⟨k, h1⟩
      · have := (firstIndex_isSome_iff _ _).mp ⟨i, h2⟩
        exact this.subset (List.mem_singleton_self 47)

/-- C5 (the code at the failing input): for the end-to-end line the text taken
between `"dig?"` and `"HTTP"` ends with the space that precedes `"HTTP/1.1"`,
so the `ua` field is `"UA1 "` (with a trailing space), not `"UA1"`. -/
theorem cutDigDataFromLine_end_to_end :
    cutDigDataFromLine (bytes
      "xxx dig?url=http%3A%2F%2Fsite.com%2Fhome%2Fpage&time=2024-01-01T00%3A00%3A00&refer=http%3A%2F%2Fref.com&ua=UA1 HTTP/1.1")
      = some { url := bytes "http://site.com/home/page"
               time := bytes "2024-01-01T00:00:00"
               refer := bytes "http://ref.com"
               ua := bytes "UA1 " } ∧
    bytes "UA1 " ≠ bytes "UA1" := by
  set_option maxRecDepth 100000 in decide

/-- C3 (counterexample): for a line whose `refer` is `"http://site.com/"` the
attached record has an empty route while its visitor id, url and timestamp are
not empty: it is neither fully populated nor fully empty. -/
theorem logCustomer_partial_record :
    (logCustomerStep (bytes
      "xxx dig?url=http%3A%2F%2Fsite.com%2F&time=2024-01-01T00%3A00%3A00&refer=http%3A%2F%2Fsite.com%2F&ua=UA1 HTTP/1.1")).map
        (fun e => e.unNode)
      = some { unType := []
               unRid := bytes "1c485e2be7b7e33f89ef871c3ee0cdce"
               unUrl := bytes "http://site.com/"
               unTime := bytes "2024-01-01T00:00:00" } ∧
    bytes "1c485e2be7b7e33f89ef871c3ee0cdce" ≠ [] ∧
    bytes "http://site.com/" ≠ [] ∧
    bytes "2024-01-01T00:00:00" ≠ [] := by
  set_option maxRecDepth 100000 in decide

/-- C3 (amended): for every raw line the worker sends an event, and the record
attached to it is either fully empty, or its visitor id, url and timestamp are
the event's `uid`, `refer` and `time`, with visitor id and url not empty (the
route and the timestamp may be empty); a record that is not empty has a
`refer` in which `"http://"` occurs and a `"/"` (byte 47) after its first seven
bytes. -/
theorem logCustomer_record_shape (line : GoString) :
    ∃ e, logCustomerStep line = some e ∧
      (e.unNode = { unType := [], unRid := [], unUrl := [], unTime := [] } ∨
       (e.unNode.unRid = e.uid ∧ e.unNode.unUrl = e.data.refer ∧
        e.unNode.unTime = e.data.time ∧
        e.unNode.unRid ≠ [] ∧ e.unNode.unUrl ≠ [] ∧
        bytes "http://" <:+: e.data.refer ∧ 47 ∈ e.data.refer.drop 7)) := by
  refine ⟨_, logCustomerStep_eq line, ?_⟩
  simp only []
  rcases formatDataSpec_shape (cutDigDataSpec line).refer (cutDigDataSpec line).time
      (visitorId (cutDigDataSpec line).refer (cutDigDataSpec line).ua) with h | ⟨h1, h2, h3, h4, h5⟩
  · exact Or.inl h
  · refine Or.inr ⟨h1, h2, h3, ?_, ?_, h4, h5⟩
    · rw [h1]; exact visitorId_ne_nil _ _
    · rw [h2]
      intro h0
      rw [h0] at h5
      simp at h5

/-- C4 (counterexample): for the end-to-end line the event's `url` is
`"http://site.com/home/page"`, but the attached record is the empty one (it is
computed from `refer`, `"http://ref.com"`, which has no `"/"` after the host);
`formatData` of the event's `url` would have been a different record. -/
theorem logCustomer_record_not_from_url :
    (logCustomerStep (bytes
      "xxx dig?url=http%3A%2F%2Fsite.com%2Fhome%2Fpage&time=2024-01-01T00%3A00%3A00&refer=http%3A%2F%2Fref.com&ua=UA1 HTTP/1.1")).map
        (fun e => (e.data.url, e.unNode))
      = some (bytes "http://site.com/home/page",
              { unType := [], unRid := [], unUrl := [], unTime := [] }) ∧
    (logCustomerStep (bytes
      "xxx dig?url=http%3A%2F%2Fsite.com%2Fhome%2Fpage&time=2024-01-01T00%3A00%3A00&refer=http%3A%2F%2Fref.com&ua=UA1 HTTP/1.1")).bind
        (fun e => formatData e.data.url e.data.time e.uid)
      = some { unType := bytes "home/page"
               unRid := bytes "3dc12d6e4d248449af82ccc5ee77283e"
               unUrl := bytes "http://site.com/home/page"
               unTime := bytes "2024-01-01T00:00:00" } := by
  set_option maxRecDepth 100000 in decide

/-- C4 (amended): for every raw line the worker sends an event whose `data` is
the parsed line, whose `uid` is the visitor identity of `refer` and `ua`, and
whose record is `formatData` applied to the event's `refer` (not its `url`),
its `time` and its `uid`; so a record that is not empty has the event's
`refer` as its url field.  For the end-to-end line, whose `refer` is
`"http://ref.com"`, the attached record is empty; for the same line with
`refer` `"http://ref.com/list"` the record has url `"http://ref.com/list"` and
route `"list"`. -/
theorem logCustomer_record_from_refer :
    (∀ line : GoString, ∃ e, logCustomerStep line = some e ∧
      cutDigDataFromLine line = some e.data ∧
      e.uid = visitorId e.data.refer e.data.ua ∧
      formatData e.data.refer e.data.time e.uid = some e.unNode ∧
      (e.unNode ≠ { unType := [], unRid := [], unUrl := [], unTime := [] } →
        e.unNode.unUrl = e.data.refer)) ∧
    (logCustomerStep (bytes
      "xxx dig?url=http%3A%2F%2Fsite.com%2Fhome%2Fpage&time=2024-01-01T00%3A00%3A00&refer=http%3A%2F%2Fref.com&ua=UA1 HTTP/1.1")).map
        (fun e => (e.data.refer, e.unNode))
      = some (bytes "http://ref.com",
              { unType := [], unRid := [], unUrl := [], unTime := [] }) ∧
    (logCustomerStep (bytes
      "xxx dig?url=http%3A%2F%2Fsite.com%2Fhome%2Fpage&time=2024-01-01T00%3A00%3A00&refer=http%3A%2F%2Fref.com%2Flist&ua=UA1 HTTP/1.1")).map
        (fun e => (e.data.url, e.unNode))
      = some (bytes "http://site.com/home/page",
              { unType := bytes "list"
                unRid := bytes "b964ccd980f6dab5a3b25fbfe2e13ffd"
                unUrl := bytes "http://ref.com/list"
                unTime := bytes "2024-01-01T00:00:00" }) := by
  refine ⟨?_, ?_, ?_⟩
  · intro line
    refine ⟨_, logCustomerStep_eq line, cutDigDataFromLine_eq line, rfl, formatData_eq _ _ _, ?_⟩
    intro hne
    rcases formatDataSpec_shape (cutDigDataSpec line).refer (cutDigDataSpec line).time
        (visitorId (cutDigDataSpec line).refer (cutDigDataSpec line).ua) with h | ⟨_, h2, _⟩
    · exact absurd h hne
    · exact h2
  · set_option maxRecDepth 100000 in decide
  · set_option maxRecDepth 100000 in decide

/-! ## The counters -/

/-- C8: `pvCounter` sends exactly one block per event, in order, each with
counter type `"pv"` and the event's record as payload, whatever the record is;
hence for every route the number of `"pv"` blocks sent for it is the number of
events that carry it. -/
theorem pvCounter_one_per_event (events : List urlData) :
    pvCounter events = events.map (fun pv =>
      { counterType := bytes "pv", storageModel := bytes "ZINCREBY", uNode := pv.unNode }) ∧
    (pvCounter events).length = events.length ∧
    (∀ route : GoString,
      (pvCounter events).countP
          (fun b => decide (b.counterType = bytes "pv" ∧ b.uNode.unType = route))
        = events.countP (fun pv => decide (pv.unNode.unType = route))) := by
  induction events with
  | nil => exact ⟨rfl, rfl, fun _ => rfl⟩
  | cons pv rest ih =>
    obtain ⟨h1, h2, h3⟩ := ih
    refine ⟨?_, ?_, ?_⟩
    · simp only [pvCounter, List.map_cons, h1]
    · simp only [pvCounter, List.length_cons, h2]
    · intro route
      simp only [pvCounter, List.countP_cons, h3 route]
      by_cases hr : pv.unNode.unType = route <;> simp [hr]

/-- C7: for every event and every reply to its `PFADD`, `uvCounter` sends one
block with counter type `"uv"` and the event's record when the reply is the
integer 1, and sends nothing for every other reply: the integer 0 (already
present), a reply that is an error, or a reply of another type; either way it
goes on with the next event. -/
theorem uvCounter_gated_by_store {σ : Type}
    (cmd : σ → GoString → List GoString → σ × Resp) (st : σ)
    (uv : urlData) (rest : List urlData) (reply : Resp) :
    (uvEmit reply uv =
        [{ counterType := bytes "uv", storageModel := bytes "ZINCREBY", uNode := uv.unNode }]
      ↔ reply = Resp.int 1) ∧
    (reply ≠ Resp.int 1 → uvEmit reply uv = []) ∧
    uvEmit (Resp.int 0) uv = [] ∧
    (∀ e : String, uvEmit (Resp.err e) uv = []) ∧
    uvCounter cmd st (uv :: rest) =
      uvEmit (cmd st (bytes "PFADD")
          [bytes "uv_hpll_" ++ uv.data.refer, uv.uid, bytes "EX", bytes "86400"]).2 uv
        ++ uvCounter cmd (cmd st (bytes "PFADD")
          [bytes "uv_hpll_" ++ uv.data.refer, uv.uid, bytes "EX", bytes "86400"]).1 rest := by
  have key : ∀ r : Resp, r ≠ Resp.int 1 → uvEmit r uv = [] := by
    intro r hr
    cases r with
    | int n =>
      have hn : n ≠ 1 := fun h => hr (by rw [h])
      simp [uvEmit, Resp.Int, hn]
    | other => simp [uvEmit, Resp.Int]
    | err e => simp [uvEmit, Resp.Int]
  refine ⟨?_, key reply, key _ (by decide), fun e => key _ (by simp), rfl⟩
  constructor
  · intro h
    by_contra hne
    rw [key reply hne] at h
    exact absurd h (by simp)
  · intro h
    subst h
    simp [uvEmit, Resp.Int]

/-- C9 (amended): with the dedup store an initially empty exact add-if-absent
set, three events with the same `refer`, the first two with the same `ua` and
the third with a `ua` that gives another visitor identity
`hex(md5(refer ++ ua))`, make `uvCounter` send exactly two blocks: one for the
first event and one for the third. -/
theorem uvCounter_dedup (e1 e2 e3 : urlData)
    (h1 : e1.uid = visitorId e1.data.refer e1.data.ua)
    (h2 : e2.uid = visitorId e2.data.refer e2.data.ua)
    (h3 : e3.uid = visitorId e3.data.refer e3.data.ua)
    (hr2 : e2.data.refer = e1.data.refer) (hr3 : e3.data.refer = e1.data.refer)
    (hu2 : e2.data.ua = e1.data.ua)
    (hid : visitorId e1.data.refer e3.data.ua ≠ visitorId e1.data.refer e1.data.ua) :
    uvCounter exactStore [] [e1, e2, e3] =
      [{ counterType := bytes "uv", storageModel := bytes "ZINCREBY", uNode := e1.unNode },
       { counterType := bytes "uv", storageModel := bytes "ZINCREBY", uNode := e3.unNode }] := by
  have h2' : e2.uid = e1.uid := by rw [h2, h1, hr2, hu2]
  have h3' : e3.uid ≠ e1.uid := by rw [h3, h1, hr3]; exact hid
  simp [uvCounter, uvCommandArgs, exactStore, uvEmit, Resp.Int, hr2, hr3, h2', h3']

/-- C9 (witness): referrer `"http://ref.com"` with user agents `"UA1"`, `"UA1"`
and `"UA2"`. -/
theorem uvCounter_dedup_witness :
    uvCounter exactStore []
      [{ data := { url := bytes "http://site.com/home/page", time := bytes "2024-01-01T00:00:00",
                   refer := bytes "http://ref.com", ua := bytes "UA1" }
         uid := bytes "34d600fa855031127461f2e7a6f66d12", unNode := {} },
       { data := { url := bytes "http://site.com/home/page", time := bytes "2024-01-01T00:00:01",
                   refer := bytes "http://ref.com", ua := bytes "UA1" }
         uid := bytes "34d600fa855031127461f2e7a6f66d12", unNode := {} },
       { data := { url := bytes "http://site.com/home/page", time := bytes "2024-01-01T00:00:02",
                   refer := bytes "http://ref.com", ua := bytes "UA2" }
         uid := bytes "012c0140749c291ac6e2d847fa8c75ff", unNode := {} }] =
      [{ counterType := bytes "uv", storageModel := bytes "ZINCREBY", uNode := {} },
       { counterType := bytes "uv", storageModel := bytes "ZINCREBY", uNode := {} }] :=
  uvCounter_dedup _ _ _
    (by set_option maxRecDepth 100000 in decide)
    (by set_option maxRecDepth 100000 in decide)
    (by set_option maxRecDepth 100000 in decide)
    rfl rfl rfl
    (by set_option maxRecDepth 100000 in decide)

/-- C9 (counterexample): two log lines with the same (empty) `refer` and
different `ua` whose visitor identities coincide, the two `ua` being an MD5
collision pair.  The worker sends `collisionEventA` for the first line and
`collisionEventB` for the second; for the first event twice and then the second,
`uvCounter` sends one block only, not two. -/
theorem uvCounter_dedup_collision :
    logCustomerStep collisionLineA = some collisionEventA ∧
    logCustomerStep collisionLineB = some collisionEventB ∧
    collisionEventB.data.refer = collisionEventA.data.refer ∧
    collisionEventB.data.ua ≠ collisionEventA.data.ua ∧
    collisionEventB.uid = collisionEventA.uid ∧
    uvCounter exactStore [] [collisionEventA, collisionEventA, collisionEventB] =
      [{ counterType := bytes "uv", storageModel := bytes "ZINCREBY",
         uNode := collisionEventA.unNode }] ∧
    (uvCounter exactStore [] [collisionEventA, collisionEventA, collisionEventB]).length
      ≠ 2 := by
  set_option maxRecDepth 1000000 in decide

/-! ## The tailer -/

/-- C10 (the code at the failing input): when a read returns a line and the
next one hits end-of-file, `readFileByLine` sends the line and then an empty
string for the failed read, although only one line was read. -/
theorem readFileByLine_sends_on_eof :
    readFileByLine [{ line := bytes "a", err := none },
                    { line := [], err := some ReadError.eof }] = [bytes "a", []] ∧
    linesRead [{ line := bytes "a", err := none },
               { line := [], err := some ReadError.eof }] = [bytes "a"] ∧
    readFileByLine [{ line := [], err := some ReadError.failure }] = [[]] := by
  decide

end Analysis
